import Mathlib

/-!
Verification of the batch-enrichment pipeline in `code/enrich_listings.py`
and the paginated places counter in `code/services/google_places.py`.

The Python source is shallowly embedded:
* pandas cell values become the inductive type `Val`; Python `None`
  (the no-data marker written by the per-attribute exception handlers)
  is `Val.vnone`;
* a row's cells, and the dict `enriched_data`, become ordered association
  lists `EMap` with dict-update semantics (`setKey`: replace in place if
  the key exists, else append at the end);
* latitude/longitude floats are embedded as micro-degrees (`Int`); the
  pipeline never computes with coordinates, it only passes them to the
  adapters, so only their identity matters;
* each external adapter call is a function yielding `AdapterRes`:
  a returned value, a raised exception of class `Exception` (caught by
  the per-attribute `except Exception` handlers), or a raised
  `BaseException` such as `KeyboardInterrupt` (caught by none of the
  handlers in `enrich_listing`);
* `asyncio` concurrency is embedded by the sequential order in which the
  source creates the batch tasks and joins them (`asyncio.gather`), with
  an explicit event trace recording record attempts and checkpoint writes.
-/

/-- A pandas cell / adapter value.  `vnone` is Python `None` / NaN,
the explicit no-data marker. -/
inductive Val where
  | vnone
  | vint (n : Int)
  | vstr (s : String)
deriving DecidableEq, Repr

/-- Result of one adapter call: a returned value, a raised exception of
class `Exception`, or a raised `BaseException` (e.g. `KeyboardInterrupt`)
that no handler in `enrich_listing` catches. -/
inductive AdapterRes where
  | ok (v : Val)
  | exc
  | base
deriving DecidableEq, Repr

/-- Ordered association list of cells: a pandas row, or the Python dict
`enriched_data` (insertion-ordered, like a Python dict). -/
abbrev EMap := List (String × Val)

/-- Python dict update `d[k] = v` / pandas `df.at[idx, k] = v`:
overwrite in place when the key/column exists, else append. -/
def setKey (m : EMap) (k : String) (v : Val) : EMap :=
  if m.any (fun p => p.1 = k) then
    m.map (fun p => if p.1 = k then (k, v) else p)
  else
    m ++ [(k, v)]

/-- One listing row as `enrich_listing` reads it: `row['latitude']`,
`row['longitude']`; `none` embeds null/NaN (`pd.isna`). -/
structure Row where
  latitude : Option Int
  longitude : Option Int
deriving DecidableEq, Repr

/-- The five attribute-lookup adapters imported by `enrich_listings.py`
(`median_income_from_latlon`, `bus_stops_within_1km`,
`police_beat_for_point`, `count_places_nearby`, `drive_time_minutes`),
given as their observable per-call outcomes. -/
structure Adapters where
  census : Int → Int → AdapterRes
  mtd : Int → Int → AdapterRes
  police : Int → Int → AdapterRes
  places : Int → Int → List String → Nat → AdapterRes
  routes : Int × Int → Int × Int → String → AdapterRes

/-- The default `place_types` dict from `enrich_listing`
(`config.get('place_types', {...})`), insertion order preserved. -/
def defaultPlaceTypes : List (String × List String) :=
  [("restaurants", ["restaurant"]),
   ("cafes", ["cafe"]),
   ("schools", ["school"]),
   ("parks", ["park"]),
   ("gyms", ["gym"]),
   ("supermarkets", ["supermarket", "supermarket"])]

/-- `LANDMARKS` from `code/utils/landmarks.py` (name → (lat, lon)),
coordinates in micro-degrees. -/
def LANDMARKS : List (String × (Int × Int)) :=
  [("UIUC Main Quad", (40110244, -88227258)),
   ("Downtown Champaign", (40117489, -88243800)),
   ("Carle Hospital", (40113056, -88214444)),
   ("Memorial Stadium", (40099167, -88235833)),
   ("Willard Airport", (40039167, -88278056))]

/-- The configuration dict consumed by `enrich_listing`, with the
defaults the source supplies via `config.get(..., default)`. -/
structure Config where
  include_census : Bool := true
  include_mtd : Bool := true
  include_police_beat : Bool := true
  include_places : Bool := true
  include_routes : Bool := true
  place_types : List (String × List String) := defaultPlaceTypes
  places_radius_m : Nat := 1000
  landmarks : List (String × (Int × Int)) := LANDMARKS

/-- Python `str.lower()`, per character. -/
def pyLower (s : String) : String := String.mk (s.data.map Char.toLower)

/-- Python `str.replace(" ", "_")`: every space becomes an underscore. -/
def pyReplaceSpace (s : String) : String :=
  String.mk (s.data.map (fun c => if c = ' ' then '_' else c))

/-- Column key for a landmark:
`f'drive_to_{landmark_name.lower().replace(" ", "_")}_min'`. -/
def driveKey (landmark_name : String) : String :=
  "drive_to_" ++ pyReplaceSpace (pyLower landmark_name) ++ "_min"

/-- Enricher state: the dict `enriched_data` so far plus the number of
adapter calls made so far (the observable call count). -/
abbrev EState := EMap × Nat

/-- A raised exception escaping a point of `enrich_listing`'s body:
whether it is of class `Exception` (so the outer `except Exception`
would catch it), plus the state of the local `enriched_data` (and call
count) at the moment it was raised — Python locals survive the raise. -/
abbrev ERaise := Bool × EState

/-- One guarded adapter call:
`try: v = await adapter(...); enriched_data[key] = v
 except Exception: enriched_data[key] = None`.
An `Exception` is absorbed into a no-data cell; a `BaseException`
escapes (it is not of class `Exception`).  Either way the adapter was
invoked, so the call count grows. -/
def tryAttr (key : String) (r : AdapterRes) (st : EState) : Except ERaise EState :=
  match r with
  | .ok v => .ok (setKey st.1 key v, st.2 + 1)
  | .exc => .ok (setKey st.1 key .vnone, st.2 + 1)
  | .base => .error (false, st.1, st.2 + 1)

/-- The body of the outer `try:` in `enrich_listing`, sections 1–5 in
source order: census, MTD bus stops, police beat, the places loop over
`place_types`, and the routes loop over `landmarks`. -/
def enrichBody (A : Adapters) (lat lon : Int) (config : Config) : Except ERaise EState := do
  let st0 : EState := ([], 0)
  let st1 ← if config.include_census then
      tryAttr "median_income" (A.census lat lon) st0
    else pure st0
  let st2 ← if config.include_mtd then
      tryAttr "bus_stops_1km" (A.mtd lat lon) st1
    else pure st1
  let st3 ← if config.include_police_beat then
      tryAttr "police_beat" (A.police lat lon) st2
    else pure st2
  let st4 ← if config.include_places then
      config.place_types.foldlM
        (fun st p => tryAttr (p.1 ++ "_nearby")
          (A.places lat lon p.2 config.places_radius_m) st) st3
    else pure st3
  let st5 ← if config.include_routes then
      config.landmarks.foldlM
        (fun st l => tryAttr (driveKey l.1)
          (A.routes (lat, lon) l.2 "DRIVE") st) st4
    else pure st4
  pure st5

/-- What `enrich_listing` does for its caller: either it returns the
dict `enriched_data` (recording whether the skipped-missing-coordinates
message was printed, and how many adapter calls were made), or a
`BaseException` escaped it. -/
inductive EnrichRes where
  | ok (data : EMap) (calls : Nat) (skippedMissing : Bool)
  | interrupted
deriving DecidableEq, Repr

/-- The outer `try ... except Exception` of `enrich_listing` around the
final `return enriched_data`: a normal body yields its dict; an
`Exception`-class raise is caught, logged, and the dict accumulated so
far is still returned; anything else (a `BaseException`) escapes. -/
def outerHandler (bodyRes : Except ERaise EState) : EnrichRes :=
  match bodyRes with
  | .ok (d, c) => .ok d c false
  | .error (true, d, c) => .ok d c false
  | .error (false, _, _) => .interrupted

/-- `enrich_listing(row, config)`.  Missing coordinates: print the
skip message and return the empty dict at once.  Otherwise run the body
inside the outer `try ... except Exception`. -/
def enrich_listing (A : Adapters) (row : Row) (config : Config) : EnrichRes :=
  match row.latitude, row.longitude with
  | some lat, some lon => outerHandler (enrichBody A lat lon config)
  | _, _ => .ok [] 0 true

/-- The attribute keys `enrich_listing` writes, with the adapter result
that decides each one, in source order.  This is the call plan the five
sections of the body execute. -/
def attrSpecs (A : Adapters) (lat lon : Int) (config : Config) :
    List (String × AdapterRes) :=
  (if config.include_census then [("median_income", A.census lat lon)] else []) ++
  (if config.include_mtd then [("bus_stops_1km", A.mtd lat lon)] else []) ++
  (if config.include_police_beat then [("police_beat", A.police lat lon)] else []) ++
  (if config.include_places then
    config.place_types.map
      (fun p => (p.1 ++ "_nearby", A.places lat lon p.2 config.places_radius_m))
   else []) ++
  (if config.include_routes then
    config.landmarks.map
      (fun l => (driveKey l.1, A.routes (lat, lon) l.2 "DRIVE"))
   else [])

/-- The cell an attribute receives from its own adapter call: the
returned value, or no-data when the call raised an `Exception`. -/
def resVal : AdapterRes → Val
  | .ok v => v
  | .exc => .vnone
  | .base => .vnone

/-! ## The batch orchestrator `enrich_listings_batch` -/

/-- What one batch task delivers through
`asyncio.gather(*tasks, return_exceptions=True)`: the dict from
`enrich_listing`, or an exception object
(`isinstance(result, Exception)` is then true and the orchestrator
skips the record). -/
inductive TaskRes where
  | ok (m : EMap)
  | raised
deriving DecidableEq, Repr

/-- The dataframe: one `EMap` of cells per row, in row order. -/
abbrev Table := List EMap

/-- Observable orchestrator events: one record attempt (its batch task),
and one durable checkpoint write (`enriched_df.to_csv(...)`). -/
inductive Event where
  | attempt (idx : Nat)
  | checkpointWrite
deriving DecidableEq, Repr

/-- `for col, value in result.items(): enriched_df.at[idx, col] = value`
applied to one row. -/
def applyRow (r : EMap) (m : EMap) : EMap :=
  m.foldl (fun r kv => setKey r kv.1 kv.2) r

/-- Merge one record's gathered result into the table: a raised
exception is logged and skipped (`continue`), leaving the row as is;
a dict is written cell by cell into row `idx`. -/
def mergeOne (f : Nat → TaskRes) (t : Table) (idx : Nat) : Table :=
  match f idx with
  | .raised => t
  | .ok m => t.set idx (applyRow (t.getD idx []) m)

/-- Merge a whole batch's results, in task order `idx = i, …, i+len-1`. -/
def mergeBatch (f : Nat → TaskRes) (t : Table) (i len : Nat) : Table :=
  (List.range' i len).foldl (mergeOne f) t

/-- The row a record ends up with, given its task result. -/
def mergeRowRes (tr : TaskRes) (r : EMap) : EMap :=
  match tr with
  | .raised => r
  | .ok m => applyRow r m

/-- A finished run: the final table, every intermediate checkpoint in
the order written, and the event trace. -/
structure RunOut where
  table : Table
  checkpoints : List Table
  events : List Event
deriving DecidableEq, Repr

/-- The batch loop `for i in range(start_idx, total, batch_size)`:
create and gather the batch's tasks (recorded as `attempt` events in
task-creation order), merge the results, save the intermediate CSV when
configured, then move to the next batch.  The recursion steps by
`max B 1` only so that it is well founded; callers reject `B = 0`
(Python's `range` raises `ValueError` there), so the step equals `B`. -/
def enrichLoop (f : Nat → TaskRes) (saveI : Bool) (N B i : Nat) (t : Table) : RunOut :=
  if hiN : i < N then
    let batch_end := min (i + B) N
    let t1 := mergeBatch f t i (batch_end - i)
    let rest := enrichLoop f saveI N B (i + max B 1) t1
    { table := rest.table,
      checkpoints := (if saveI then [t1] else []) ++ rest.checkpoints,
      events := (List.range' i (batch_end - i)).map Event.attempt
        ++ (if saveI then [Event.checkpointWrite] else []) ++ rest.events }
  else
    { table := t, checkpoints := [], events := [] }
termination_by N - i
decreasing_by
  have h1 : 1 ≤ max B 1 := Nat.le_max_right B 1
  exact Nat.sub_lt_sub_left hiN (by omega)

/-- `enrich_listings_batch(df, config, batch_size, start_idx)`, with the
per-record enrichment outcomes abstracted as `f` and only the
checkpointing flag kept from `config`.  `batch_size = 0` makes Python's
`range` raise `ValueError`, embedded as `none`. -/
def enrich_listings_batch (f : Nat → TaskRes) (df : Table) (saveI : Bool)
    (B s : Nat) : Option RunOut :=
  if 0 < B then some (enrichLoop f saveI df.length B s df) else none

/-- Number of batches the loop runs: `⌈(N - s) / B⌉` in truncated `Nat`
arithmetic. -/
def numBatches (N s B : Nat) : Nat := (N - s + B - 1) / B

/-! ## The paginated places counter `count_places_nearby` -/

/-- One HTTP response of the Places `searchNearby` endpoint, as the
counter reads it: the status code, `len(data.get("places", []))`, and
`data.get("nextPageToken")`. -/
structure PlacesResp where
  status_code : Nat
  places : Nat
  nextPageToken : Option String
deriving DecidableEq, Repr

/-- Python truthiness of the next-page token: `None` and the empty
string are falsy (`if not token: break`). -/
def tokenTruthy : Option String → Bool
  | none => false
  | some s => !(s == "")

/-- The `for _ in range(3)` pagination loop.  Each iteration posts the
request (the page token sent is recorded), raises `RuntimeError` on a
non-200 status, accumulates `len(places)` into `total`, and stops when
the returned token is falsy.  Returns the result (`RuntimeError`
embedded as `Except.error`) together with the requests actually made. -/
def placesLoop (api : Option String → PlacesResp) :
    Nat → Option String → Nat → (Except Unit Nat) × List (Option String)
  | 0, _, total => (.ok total, [])
  | fuel + 1, token, total =>
    let resp := api token
    if resp.status_code ≠ 200 then (.error (), [token])
    else if tokenTruthy resp.nextPageToken then
      let rest := placesLoop api fuel resp.nextPageToken (total + resp.places)
      (rest.1, token :: rest.2)
    else (.ok (total + resp.places), [token])

/-- `count_places_nearby`: raise if the API key is missing, otherwise
run the pagination loop for at most 3 pages starting with no page
token and a zero total. -/
def count_places_nearby (hasKey : Bool) (api : Option String → PlacesResp) :
    (Except Unit Nat) × List (Option String) :=
  if hasKey then placesLoop api 3 none 0 else (.error (), [])

/-! ## Claim-side predicate (from the spec's words, for claim C4) -/

/-- Spec-side rendering of "the output row differs from the input row
only by added columns": the output row is the input row with some
columns appended after it. -/
def onlyAddsColumns (inRow outRow : EMap) : Prop :=
  ∃ ext, outRow = inRow ++ ext

/-! ## Concrete fixtures used by witness and counterexample theorems -/

/-- Adapter fixture: the census call raises an `Exception`, every other
adapter returns a value. -/
def failCensusAdapters : Adapters :=
  { census := fun _ _ => .exc,
    mtd := fun _ _ => .ok (.vint 3),
    police := fun _ _ => .ok (.vstr "Beat 7")
    places := fun _ _ _ _ => .ok (.vint 2),
    routes := fun _ _ _ => .ok (.vint 12) }

/-- Adapter fixture: every adapter returns a value. -/
def okAdapters : Adapters :=
  { census := fun _ _ => .ok (.vint 52000),
    mtd := fun _ _ => .ok (.vint 3),
    police := fun _ _ => .ok (.vstr "Beat 7")
    places := fun _ _ _ _ => .ok (.vint 2),
    routes := fun _ _ _ => .ok (.vint 12) }

/-- Adapter fixture: the routes call raises an `Exception`, every other
adapter returns a value. -/
def failRoutesAdapters : Adapters :=
  { okAdapters with routes := fun _ _ _ => .exc }

/-- A row with valid coordinates. -/
def someRow : Row := { latitude := some 40102000, longitude := some (-88227200) }

/-- A row whose longitude is NaN. -/
def nanRow : Row := { latitude := some 40102000, longitude := none }

/-- A small configuration: census and MTD and one landmark, no places. -/
def smallConfig : Config :=
  { include_police_beat := false,
    include_places := false,
    landmarks := [("UIUC Main Quad", (40110244, -88227258))] }

/-- Input table for the C4 counterexample: a single row that already
has a `median_income` column. -/
def collidingDf : Table := [[("median_income", Val.vint 5)]]

/-- Task outcomes for the C4 counterexample: the one record's
enrichment yields a `median_income` value, as `enrich_listing` does
when the census adapter is enabled. -/
def collidingTasks : Nat → TaskRes := fun _ => .ok [("median_income", Val.vint 7)]

/-- A three-row input table with one pass-through column per row. -/
def threeRowDf : Table :=
  [[("address", Val.vstr "a0")], [("address", Val.vstr "a1")], [("address", Val.vstr "a2")]]

/-- Task outcomes where record 1 raises and the others succeed. -/
def raisingTasks : Nat → TaskRes := fun i =>
  if i = 1 then .raised else .ok [("bus_stops_1km", Val.vint 3)]

/-- Places API fixture: one successful page with five places and no
next-page token. -/
def onePageApi : Option String → PlacesResp :=
  fun _ => { status_code := 200, places := 5, nextPageToken := none }

/-- Whether a body outcome is an `Exception`-class raise escaping the
body (the only kind the outer handler would have to catch). -/
def isExcRaise : Except ERaise EState → Bool
  | .error (true, _) => true
  | _ => false

/-- Project an event to the record index it attempts, if any. -/
def attemptOf : Event → Option Nat
  | .attempt i => some i
  | .checkpointWrite => none

/-! # Theorems

## Record-enricher lemmas -/

theorem exceptOkBind {α β ε : Type} (x : α) (f : α → Except ε β) :
    (Except.ok x >>= f) = f x := rfl

theorem exceptErrBind {α β ε : Type} (e : ε) (f : α → Except ε β) :
    ((Except.error e : Except ε α) >>= f) = Except.error e := rfl

theorem setKey_of_not_mem (m : EMap) (k : String) (v : Val)
    (h : ∀ p ∈ m, p.1 ≠ k) : setKey m k v = m ++ [(k, v)] := by
  have hany : m.any (fun p => p.1 = k) = false := by
    simp only [List.any_eq_false, decide_eq_true_eq]
    exact h
  simp [setKey, hany]

theorem foldlM_tryAttr_ok (l : List (String × AdapterRes)) (st : EState)
    (h : ∀ p ∈ l, p.2 ≠ AdapterRes.base) :
    l.foldlM (fun st p => tryAttr p.1 p.2 st) st =
      Except.ok (l.foldl (fun d p => setKey d p.1 (resVal p.2)) st.1, st.2 + l.length) := by
  induction l generalizing st with
  | nil => rfl
  | cons p t ih =>
    have hp : p.2 ≠ AdapterRes.base := h p (List.mem_cons_self _ _)
    have ht : ∀ q ∈ t, q.2 ≠ AdapterRes.base := fun q hq => h q (List.mem_cons_of_mem _ hq)
    simp only [List.foldlM_cons, List.foldl_cons]
    cases hr : p.2 with
    | ok v =>
      rw [show tryAttr p.1 (AdapterRes.ok v) st
            = Except.ok (setKey st.1 p.1 v, st.2 + 1) from rfl]
      simp only [exceptOkBind]
      rw [ih _ ht]
      simp only [resVal, List.length_cons]
      have hn : st.2 + 1 + t.length = st.2 + (t.length + 1) := by omega
      rw [hn]
    | exc =>
      rw [show tryAttr p.1 AdapterRes.exc st
            = Except.ok (setKey st.1 p.1 Val.vnone, st.2 + 1) from rfl]
      simp only [exceptOkBind]
      rw [ih _ ht]
      simp only [resVal, List.length_cons]
      have hn : st.2 + 1 + t.length = st.2 + (t.length + 1) := by omega
      rw [hn]
    | base => exact absurd hr hp

theorem foldlM_tryAttr_no_exc (l : List (String × AdapterRes)) (st st' : EState) :
    l.foldlM (fun st p => tryAttr p.1 p.2 st) st ≠ Except.error (true, st') := by
  induction l generalizing st with
  | nil => exact fun hcon => Except.noConfusion hcon
  | cons p t ih =>
    simp only [List.foldlM_cons]
    cases hr : p.2 with
    | ok v =>
      rw [show tryAttr p.1 (AdapterRes.ok v) st
            = Except.ok (setKey st.1 p.1 v, st.2 + 1) from rfl]
      simp only [exceptOkBind]
      exact ih _
    | exc =>
      rw [show tryAttr p.1 AdapterRes.exc st
            = Except.ok (setKey st.1 p.1 Val.vnone, st.2 + 1) from rfl]
      simp only [exceptOkBind]
      exact ih _
    | base =>
      rw [show tryAttr p.1 AdapterRes.base st
            = Except.error (false, st.1, st.2 + 1) from rfl]
      simp only [exceptErrBind]
      intro hcon
      cases hcon

theorem enrichBody_eq_foldlM (A : Adapters) (lat lon : Int) (config : Config) :
    enrichBody A lat lon config =
      (attrSpecs A lat lon config).foldlM (fun st p => tryAttr p.1 p.2 st) ([], 0) := by
  obtain ⟨c1, c2, c3, c4, c5, pts, rad, lms⟩ := config
  unfold enrichBody attrSpecs
  cases c1 <;> cases c2 <;> cases c3 <;> cases c4 <;> cases c5 <;>
    simp [List.foldlM_append, List.foldlM_map, bind_assoc]

theorem foldl_setKey_of_nodup (l : List (String × AdapterRes)) (d : EMap)
    (h : (d.map Prod.fst ++ l.map Prod.fst).Nodup) :
    l.foldl (fun d p => setKey d p.1 (resVal p.2)) d
      = d ++ l.map (fun p => (p.1, resVal p.2)) := by
  induction l generalizing d with
  | nil => simp
  | cons p t ih =>
    simp only [List.foldl_cons]
    have hdis : (d.map Prod.fst).Disjoint ((p :: t).map Prod.fst) :=
      (List.nodup_append.mp h).2.2
    have hknotin : ∀ q ∈ d, q.1 ≠ p.1 := by
      intro q hq hqk
      exact hdis (List.mem_map.mpr ⟨q, hq, rfl⟩)
        (by rw [hqk]; exact List.mem_map.mpr ⟨p, List.mem_cons_self _ _, rfl⟩)
    rw [setKey_of_not_mem _ _ _ hknotin, ih (d ++ [(p.1, resVal p.2)])]
    · simp
    · have : (d ++ [(p.1, resVal p.2)]).map Prod.fst ++ t.map Prod.fst
          = d.map Prod.fst ++ (p :: t).map Prod.fst := by simp
      rw [this]
      exact h

theorem lookup_of_mem_nodup {α β : Type} [BEq α] [LawfulBEq α]
    (l : List (α × β)) (k : α) (v : β)
    (hmem : (k, v) ∈ l) (hnd : (l.map Prod.fst).Nodup) : l.lookup k = some v := by
  induction l with
  | nil => cases hmem
  | cons p t ih =>
    have hnd' : (p.1 :: t.map Prod.fst).Nodup := by simpa using hnd
    rcases List.mem_cons.mp hmem with heq | hmemt
    · rw [← heq]
      simp [List.lookup]
    · have hne : k ≠ p.1 := by
        intro hkk
        apply (List.nodup_cons.mp hnd').1
        rw [← hkk]
        exact List.mem_map.mpr ⟨(k, v), hmemt, rfl⟩
      obtain ⟨k', v'⟩ := p
      have hbeq : (k == k') = false := beq_eq_false_iff_ne.mpr hne
      simp only [List.lookup, hbeq]
      exact ih hmemt (List.nodup_cons.mp hnd').2

theorem lookup_map_snd {α β γ : Type} [BEq α] (l : List (α × β)) (f : β → γ) (k : α) :
    (l.map (fun p => (p.1, f p.2))).lookup k = (l.lookup k).map f := by
  induction l with
  | nil => rfl
  | cons p t ih =>
    obtain ⟨k', v'⟩ := p
    simp only [List.map_cons, List.lookup]
    cases hkk : k == k' <;> simp [ih]

/-- Full characterization of a valid-coordinate enrichment when no
`BaseException` occurs and the configured attribute keys are distinct:
every enabled attribute gets exactly the cell its own adapter call
determines, in plan order, and every adapter is called exactly once. -/
theorem enrich_listing_spec (A : Adapters) (row : Row) (config : Config) (lat lon : Int)
    (hlat : row.latitude = some lat) (hlon : row.longitude = some lon)
    (hnb : ∀ p ∈ attrSpecs A lat lon config, p.2 ≠ AdapterRes.base)
    (hnd : ((attrSpecs A lat lon config).map Prod.fst).Nodup) :
    enrich_listing A row config =
      EnrichRes.ok ((attrSpecs A lat lon config).map (fun p => (p.1, resVal p.2)))
        (attrSpecs A lat lon config).length false := by
  unfold enrich_listing
  rw [hlat, hlon]
  rw [show (match (some lat : Option Int), (some lon : Option Int) with
      | some lat, some lon => outerHandler (enrichBody A lat lon config)
      | _, _ => EnrichRes.ok [] 0 true) = outerHandler (enrichBody A lat lon config) from rfl]
  rw [enrichBody_eq_foldlM, foldlM_tryAttr_ok _ _ hnb,
    foldl_setKey_of_nodup _ [] (by simpa using hnd)]
  simp [outerHandler]

/-- Claim C1: for a record with valid coordinates, if exactly one
adapter call raises an `Exception` while every other call returns, the
failed call's attribute key is mapped to the no-data marker, every
other enabled attribute receives the value its adapter returned, and
the enricher returns normally instead of raising past its boundary.
Place-category and landmark attributes are individual entries of the
call plan `attrSpecs`, so this holds per category/landmark key. -/
theorem claim1_single_failure_isolated (A : Adapters) (row : Row) (config : Config)
    (lat lon : Int) (k0 : String)
    (hlat : row.latitude = some lat) (hlon : row.longitude = some lon)
    (hnd : ((attrSpecs A lat lon config).map Prod.fst).Nodup)
    (hfail : (k0, AdapterRes.exc) ∈ attrSpecs A lat lon config)
    (hothers : ∀ p ∈ attrSpecs A lat lon config,
      p.1 ≠ k0 → p.2 ≠ AdapterRes.exc ∧ p.2 ≠ AdapterRes.base) :
    ∃ d, enrich_listing A row config
        = EnrichRes.ok d (attrSpecs A lat lon config).length false ∧
      d.lookup k0 = some Val.vnone ∧
      (∀ k v, (k, AdapterRes.ok v) ∈ attrSpecs A lat lon config → d.lookup k = some v) := by
  have hl0 := lookup_of_mem_nodup _ _ _ hfail hnd
  have hnb : ∀ p ∈ attrSpecs A lat lon config, p.2 ≠ AdapterRes.base := by
    intro p hp
    by_cases hk : p.1 = k0
    · have hexc : p.2 = AdapterRes.exc := by
        have hl1 : (attrSpecs A lat lon config).lookup k0 = some p.2 := by
          rw [← hk]
          exact lookup_of_mem_nodup _ p.1 p.2 hp hnd
        rw [hl0] at hl1
        exact (Option.some.inj hl1).symm
      rw [hexc]
      intro hcon
      cases hcon
    · exact (hothers p hp hk).2
  refine ⟨_, enrich_listing_spec A row config lat lon hlat hlon hnb hnd, ?_, ?_⟩
  · rw [lookup_map_snd, hl0]
    rfl
  · intro k v hkv
    rw [lookup_map_snd, lookup_of_mem_nodup _ _ _ hkv hnd]
    rfl

/-- Witness for C1 at a concrete input: census raises, MTD and the one
landmark drive time succeed. -/
theorem claim1_single_failure_isolated_witness :
    (("median_income", AdapterRes.exc)
        ∈ attrSpecs failCensusAdapters 40102000 (-88227200) smallConfig) ∧
    (∃ d, enrich_listing failCensusAdapters someRow smallConfig
        = EnrichRes.ok d
            (attrSpecs failCensusAdapters 40102000 (-88227200) smallConfig).length false ∧
      d.lookup "median_income" = some Val.vnone ∧
      (∀ k v, (k, AdapterRes.ok v) ∈ attrSpecs failCensusAdapters 40102000 (-88227200) smallConfig
        → d.lookup k = some v)) :=
  ⟨by decide, claim1_single_failure_isolated failCensusAdapters someRow smallConfig
      40102000 (-88227200) "median_income" rfl rfl (by decide) (by decide) (by decide)⟩

/-- Claim C2: a record whose latitude or longitude is null/NaN gets an
empty enrichment dict immediately, with an adapter call count of zero
and the skipped-missing-coordinates condition signalled. -/
theorem claim2_missing_coordinates_skipped (A : Adapters) (row : Row) (config : Config)
    (h : row.latitude = none ∨ row.longitude = none) :
    enrich_listing A row config = EnrichRes.ok [] 0 true := by
  unfold enrich_listing
  rcases h with h | h
  · rw [h]
  · rw [h]
    cases row.latitude <;> rfl

/-- Witness for C2 at a concrete row with a NaN longitude. -/
theorem claim2_missing_coordinates_skipped_witness :
    (nanRow.latitude = none ∨ nanRow.longitude = none) ∧
    enrich_listing okAdapters nanRow smallConfig = EnrichRes.ok [] 0 true :=
  ⟨Or.inr rfl, claim2_missing_coordinates_skipped okAdapters nanRow smallConfig (Or.inr rfl)⟩

/-- Claim C8: every configured landmark's drive-time attribute sits
under the key `drive_to_{slug}_min`, where the slug lower-cases the
landmark name and replaces every space with an underscore; by `resVal`,
the same key receives the returned minutes on success and the no-data
marker when the call raises. -/
theorem claim8_drive_time_column_key (A : Adapters) (row : Row) (config : Config)
    (lat lon : Int) (lname : String) (lcoord : Int × Int)
    (hlat : row.latitude = some lat) (hlon : row.longitude = some lon)
    (hroutes : config.include_routes = true)
    (hmem : (lname, lcoord) ∈ config.landmarks)
    (hnd : ((attrSpecs A lat lon config).map Prod.fst).Nodup)
    (hnb : ∀ p ∈ attrSpecs A lat lon config, p.2 ≠ AdapterRes.base) :
    ∃ d c, enrich_listing A row config = EnrichRes.ok d c false ∧
      d.lookup ("drive_to_" ++ pyReplaceSpace (pyLower lname) ++ "_min")
        = some (resVal (A.routes (lat, lon) lcoord "DRIVE")) := by
  have hspec : (driveKey lname, A.routes (lat, lon) lcoord "DRIVE")
      ∈ attrSpecs A lat lon config := by
    unfold attrSpecs
    apply List.mem_append_right
    rw [hroutes]
    exact List.mem_map.mpr ⟨(lname, lcoord), hmem, rfl⟩
  refine ⟨_, _, enrich_listing_spec A row config lat lon hlat hlon hnb hnd, ?_⟩
  rw [show ("drive_to_" ++ pyReplaceSpace (pyLower lname) ++ "_min") = driveKey lname from rfl]
  rw [lookup_map_snd, lookup_of_mem_nodup _ _ _ hspec hnd]
  rfl

/-- Witness for C8 at a concrete input where the drive-time call
raises, so the slug key carries the no-data marker. -/
theorem claim8_drive_time_column_key_witness :
    (("UIUC Main Quad", ((40110244 : Int), (-88227258 : Int))) ∈ smallConfig.landmarks) ∧
    (∃ d c, enrich_listing failRoutesAdapters someRow smallConfig = EnrichRes.ok d c false ∧
      d.lookup ("drive_to_" ++ pyReplaceSpace (pyLower "UIUC Main Quad") ++ "_min")
        = some (resVal (failRoutesAdapters.routes (40102000, -88227200)
            (40110244, -88227258) "DRIVE"))) :=
  ⟨by decide, claim8_drive_time_column_key failRoutesAdapters someRow smallConfig
      40102000 (-88227200) "UIUC Main Quad" (40110244, -88227258)
      rfl rfl rfl (by decide) (by decide) (by decide)⟩

/-- Claim C10 (implicit): the record enricher never lets an
`Exception`-class raise escape to its caller — every adapter exception
of class `Exception` is absorbed by its per-attribute handler, so the
body never produces an `Exception`-class raise; and the outer
`except Exception` maps any such raise to a normal return of the
attribute map accumulated before the fault. -/
theorem claim10_enricher_absorbs_exceptions :
    (∀ (A : Adapters) (lat lon : Int) (config : Config),
        isExcRaise (enrichBody A lat lon config) = false) ∧
    (∀ (d : EMap) (c : Nat),
        outerHandler (Except.error (true, (d, c))) = EnrichRes.ok d c false) := by
  constructor
  · intro A lat lon config
    rw [enrichBody_eq_foldlM]
    cases hb : (attrSpecs A lat lon config).foldlM (fun st p => tryAttr p.1 p.2 st) ([], 0) with
    | ok st => rfl
    | error e =>
      obtain ⟨flag, st⟩ := e
      cases flag
      · rfl
      · exact absurd hb (foldlM_tryAttr_no_exc _ _ _)
  · intro d c
    rfl

theorem placesLoop_len (api : Option String → PlacesResp) (fuel : Nat)
    (token : Option String) (total : Nat) :
    (placesLoop api fuel token total).2.length ≤ fuel := by
  induction fuel generalizing token total with
  | zero => simp [placesLoop]
  | succ m ih =>
    simp only [placesLoop]
    by_cases h1 : (api token).status_code ≠ 200
    · rw [if_pos h1]
      simp
    · rw [if_neg h1]
      by_cases h2 : tokenTruthy (api token).nextPageToken = true
      · rw [if_pos h2]
        simpa using Nat.succ_le_succ (ih _ _)
      · rw [if_neg h2]
        simp

theorem placesLoop_sum (api : Option String → PlacesResp) (fuel : Nat)
    (token : Option String) (total n : Nat)
    (h : (placesLoop api fuel token total).1 = Except.ok n) :
    n = total + ((placesLoop api fuel token total).2.map (fun t => (api t).places)).sum := by
  induction fuel generalizing token total n with
  | zero =>
    simp only [placesLoop] at h ⊢
    simpa using (Except.ok.inj h).symm
  | succ m ih =>
    simp only [placesLoop] at h ⊢
    by_cases h1 : (api token).status_code ≠ 200
    · rw [if_pos h1] at h
      cases h
    · rw [if_neg h1] at h ⊢
      by_cases h2 : tokenTruthy (api token).nextPageToken = true
      · rw [if_pos h2] at h ⊢
        simp only [List.map_cons, List.sum_cons]
        have := ih _ _ _ h
        omega
      · rw [if_neg h2] at h ⊢
        have := Except.ok.inj h
        simp only [List.map_cons, List.map_nil, List.sum_cons, List.sum_nil]
        omega

theorem placesLoop_stop (api : Option String → PlacesResp) (fuel : Nat)
    (token : Option String) (total n : Nat)
    (h : (placesLoop api fuel token total).1 = Except.ok n) :
    (placesLoop api fuel token total).2.length = fuel ∨
    (∃ last, (placesLoop api fuel token total).2.getLast? = some last ∧
      tokenTruthy (api last).nextPageToken = false) := by
  induction fuel generalizing token total n with
  | zero =>
    left
    simp [placesLoop]
  | succ m ih =>
    simp only [placesLoop] at h ⊢
    by_cases h1 : (api token).status_code ≠ 200
    · rw [if_pos h1] at h
      cases h
    · rw [if_neg h1] at h ⊢
      by_cases h2 : tokenTruthy (api token).nextPageToken = true
      · rw [if_pos h2] at h ⊢
        rcases ih _ _ _ h with hl | ⟨last, hlast, hfalse⟩
        · left
          simp [hl]
        · right
          refine ⟨last, ?_, hfalse⟩
          cases hl : (placesLoop api m (api token).nextPageToken (total + (api token).places)).2 with
          | nil =>
            rw [hl] at hlast
            cases hlast
          | cons b tl =>
            rw [hl] at hlast
            simpa [List.getLast?_cons_cons] using hlast
      · rw [if_neg h2] at h ⊢
        right
        exact ⟨token, rfl, Bool.not_eq_true _ ▸ h2⟩

/-- Claim C9: the places counter makes at most 3 page requests no
matter how many results exist; on success it returns the sum of the
page sizes over exactly the pages it retrieved, and it either used its
full page budget or stopped at a page whose next-page token was
missing/falsy. -/
theorem claim9_places_pagination_capped (api : Option String → PlacesResp) :
    (count_places_nearby true api).2.length ≤ 3 ∧
    (∀ n, (count_places_nearby true api).1 = Except.ok n →
      n = ((count_places_nearby true api).2.map (fun t => (api t).places)).sum ∧
      ((count_places_nearby true api).2.length = 3 ∨
        ∃ last, (count_places_nearby true api).2.getLast? = some last ∧
          tokenTruthy (api last).nextPageToken = false)) := by
  have hc : count_places_nearby true api = placesLoop api 3 none 0 := rfl
  rw [hc]
  refine ⟨placesLoop_len _ _ _ _, fun n h => ⟨?_, placesLoop_stop _ _ _ _ _ h⟩⟩
  simpa using placesLoop_sum _ _ _ _ _ h

/-- Witness for C9: one successful page of five places and no
next-page token. -/
theorem claim9_places_pagination_capped_witness :
    (count_places_nearby true onePageApi).1 = Except.ok 5 ∧
    (count_places_nearby true onePageApi).2.length ≤ 3 ∧
    (5 = ((count_places_nearby true onePageApi).2.map (fun t => (onePageApi t).places)).sum ∧
      ((count_places_nearby true onePageApi).2.length = 3 ∨
        ∃ last, (count_places_nearby true onePageApi).2.getLast? = some last ∧
          tokenTruthy (onePageApi last).nextPageToken = false)) :=
  ⟨rfl, (claim9_places_pagination_capped onePageApi).1,
    (claim9_places_pagination_capped onePageApi).2 5 rfl⟩

theorem enrichLoop_base (f : Nat → TaskRes) (saveI : Bool) (N B i : Nat) (t : Table)
    (h : ¬ i < N) : enrichLoop f saveI N B i t = ⟨t, [], []⟩ := by
  rw [enrichLoop.eq_def, dif_neg h]

theorem enrichLoop_step (f : Nat → TaskRes) (saveI : Bool) (N B i : Nat) (t : Table)
    (h : i < N) :
    enrichLoop f saveI N B i t =
      { table := (enrichLoop f saveI N B (i + max B 1)
            (mergeBatch f t i (min (i + B) N - i))).table,
        checkpoints := (if saveI then [mergeBatch f t i (min (i + B) N - i)] else [])
          ++ (enrichLoop f saveI N B (i + max B 1)
            (mergeBatch f t i (min (i + B) N - i))).checkpoints,
        events := (List.range' i (min (i + B) N - i)).map Event.attempt
          ++ (if saveI then [Event.checkpointWrite] else [])
          ++ (enrichLoop f saveI N B (i + max B 1)
            (mergeBatch f t i (min (i + B) N - i))).events } := by
  rw [enrichLoop.eq_def, dif_pos h]

theorem mergeOne_length (f : Nat → TaskRes) (t : Table) (idx : Nat) :
    (mergeOne f t idx).length = t.length := by
  unfold mergeOne
  cases f idx <;> simp

theorem mergeBatch_length (f : Nat → TaskRes) (t : Table) (i len : Nat) :
    (mergeBatch f t i len).length = t.length := by
  unfold mergeBatch
  induction len generalizing i t with
  | zero => rfl
  | succ n ih =>
    rw [List.range'_succ, List.foldl_cons, ih]
    exact mergeOne_length f t i

theorem mergeOne_get (f : Nat → TaskRes) (t : Table) (idx j : Nat) :
    (mergeOne f t idx)[j]? =
      if j = idx then (t[j]?).map (mergeRowRes (f idx)) else t[j]? := by
  unfold mergeOne
  cases hf : f idx with
  | raised =>
    dsimp only
    by_cases hj : j = idx
    · rw [if_pos hj]
      cases t[j]? <;> simp [mergeRowRes]
    · rw [if_neg hj]
  | ok m =>
    dsimp only
    by_cases hj : j = idx
    · subst hj
      rw [if_pos rfl]
      by_cases hlt : j < t.length
      · rw [List.getElem?_set_self hlt, List.getElem?_eq_getElem hlt]
        simp [mergeRowRes, List.getD_eq_getElem?_getD, List.getElem?_eq_getElem hlt]
      · rw [List.set_eq_of_length_le (by omega)]
        rw [List.getElem?_eq_none (by omega)]
        rfl
    · rw [if_neg hj, List.getElem?_set_ne (fun hcon => hj hcon.symm)]

theorem mergeBatch_get (f : Nat → TaskRes) (t : Table) (i len j : Nat) :
    (mergeBatch f t i len)[j]? =
      if i ≤ j ∧ j < i + len then (t[j]?).map (mergeRowRes (f j)) else t[j]? := by
  unfold mergeBatch
  induction len generalizing i t with
  | zero =>
    rw [if_neg (by omega)]
    rfl
  | succ n ih =>
    rw [List.range'_succ, List.foldl_cons, ih, mergeOne_get]
    by_cases h1 : j = i
    · subst h1
      rw [if_neg (by omega), if_pos rfl, if_pos (by omega)]
    · rw [if_neg h1]
      by_cases h2 : i + 1 ≤ j ∧ j < i + 1 + n
      · rw [if_pos h2, if_pos (by omega)]
      · rw [if_neg h2, if_neg (by omega)]

theorem numBatches_step (N i B : Nat) (hB : 0 < B) (hiN : i < N) :
    numBatches N i B = numBatches N (i + B) B + 1 := by
  unfold numBatches
  by_cases hcase : N ≤ i + B
  · have h1 : N - (i + B) = 0 := by omega
    rw [h1]
    have h3 : N - i + B - 1 = (N - i - 1) + B := by omega
    rw [h3, Nat.add_div_right _ hB]
    have h4 : (N - i - 1) / B = 0 := Nat.div_eq_of_lt (by omega)
    have h5 : (0 + B - 1) / B = 0 := Nat.div_eq_of_lt (by omega)
    rw [h4, h5]
  · have h3 : N - i + B - 1 = (N - (i + B) + B - 1) + B := by omega
    rw [h3, Nat.add_div_right _ hB]

theorem enrichLoop_table_get (f : Nat → TaskRes) (saveI : Bool) (N B : Nat) (hB : 0 < B) :
    ∀ (fuel i : Nat) (t : Table), N - i ≤ fuel → ∀ j,
      (enrichLoop f saveI N B i t).table[j]? =
        if i ≤ j ∧ j < N then (t[j]?).map (mergeRowRes (f j)) else t[j]? := by
  intro fuel
  induction fuel with
  | zero =>
    intro i t hfuel j
    rw [enrichLoop_base _ _ _ _ _ _ (by omega), if_neg (by omega)]
  | succ m ih =>
    intro i t hfuel j
    by_cases hiN : i < N
    · rw [enrichLoop_step _ _ _ _ _ _ hiN]
      dsimp only
      rw [Nat.max_eq_left hB, ih (i + B) _ (by omega) j, mergeBatch_get]
      by_cases hc1 : i + B ≤ j ∧ j < N
      · have hc2 : ¬(i ≤ j ∧ j < i + (min (i + B) N - i)) := by omega
        rw [if_pos hc1, if_neg hc2, if_pos (show i ≤ j ∧ j < N by omega)]
      · rw [if_neg hc1]
        by_cases hc2 : i ≤ j ∧ j < i + (min (i + B) N - i)
        · rw [if_pos hc2, if_pos (show i ≤ j ∧ j < N by omega)]
        · rw [if_neg hc2, if_neg (show ¬(i ≤ j ∧ j < N) by omega)]
    · rw [enrichLoop_base _ _ _ _ _ _ hiN, if_neg (by omega)]

theorem enrichLoop_table_length (f : Nat → TaskRes) (saveI : Bool) (N B : Nat) (hB : 0 < B) :
    ∀ (fuel i : Nat) (t : Table), N - i ≤ fuel →
      (enrichLoop f saveI N B i t).table.length = t.length := by
  intro fuel
  induction fuel with
  | zero =>
    intro i t hfuel
    rw [enrichLoop_base _ _ _ _ _ _ (by omega)]
  | succ m ih =>
    intro i t hfuel
    by_cases hiN : i < N
    · rw [enrichLoop_step _ _ _ _ _ _ hiN]
      dsimp only
      rw [Nat.max_eq_left hB, ih (i + B) _ (by omega), mergeBatch_length]
    · rw [enrichLoop_base _ _ _ _ _ _ hiN]

theorem enrichLoop_checkpoints (f : Nat → TaskRes) (N B : Nat) (hB : 0 < B) :
    ∀ (fuel i : Nat) (t : Table), N - i ≤ fuel →
      (enrichLoop f true N B i t).checkpoints.length = numBatches N i B ∧
      (∀ c ∈ (enrichLoop f true N B i t).checkpoints, c.length = t.length) := by
  intro fuel
  induction fuel with
  | zero =>
    intro i t hfuel
    rw [enrichLoop_base _ _ _ _ _ _ (by omega)]
    refine ⟨?_, by intro c hc; cases hc⟩
    show 0 = numBatches N i B
    unfold numBatches
    rw [show N - i = 0 from by omega]
    exact (Nat.div_eq_of_lt (by omega)).symm
  | succ m ih =>
    intro i t hfuel
    by_cases hiN : i < N
    · rw [enrichLoop_step _ _ _ _ _ _ hiN]
      dsimp only
      rw [Nat.max_eq_left hB, if_pos rfl]
      obtain ⟨hlen, hall⟩ := ih (i + B) (mergeBatch f t i (min (i + B) N - i)) (by omega)
      constructor
      · rw [List.length_append, hlen, numBatches_step N i B hB hiN]
        simp only [List.length_cons, List.length_nil]
        omega
      · intro c hc
        rcases List.mem_append.mp hc with hc1 | hc2
        · rw [List.mem_singleton.mp hc1]
          exact mergeBatch_length f t i _
        · rw [hall c hc2, mergeBatch_length]
    · rw [enrichLoop_base _ _ _ _ _ _ hiN]
      refine ⟨?_, by intro c hc; cases hc⟩
      show 0 = numBatches N i B
      unfold numBatches
      rw [show N - i = 0 from by omega]
      exact (Nat.div_eq_of_lt (by omega)).symm

theorem enrichLoop_attempt_indices (f : Nat → TaskRes) (saveI : Bool) (N B : Nat) (hB : 0 < B) :
    ∀ (fuel i : Nat) (t : Table), N - i ≤ fuel →
      (enrichLoop f saveI N B i t).events.filterMap attemptOf = List.range' i (N - i) := by
  intro fuel
  induction fuel with
  | zero =>
    intro i t hfuel
    rw [enrichLoop_base _ _ _ _ _ _ (by omega), show N - i = 0 from by omega]
    rfl
  | succ m ih =>
    intro i t hfuel
    by_cases hiN : i < N
    · rw [enrichLoop_step _ _ _ _ _ _ hiN]
      dsimp only
      rw [Nat.max_eq_left hB, List.filterMap_append, List.filterMap_append,
        ih (i + B) _ (by omega)]
      have h1 : List.filterMap attemptOf
            ((List.range' i (min (i + B) N - i)).map Event.attempt)
          = List.range' i (min (i + B) N - i) := by
        rw [List.filterMap_map,
          show attemptOf ∘ Event.attempt = some from funext (fun x => rfl),
          List.filterMap_some]
      have h2 : List.filterMap attemptOf (if saveI then [Event.checkpointWrite] else [])
          = [] := by
        cases saveI <;> rfl
      rw [h1, h2, List.append_nil]
      by_cases hsplit : i + B ≤ N
      · rw [show min (i + B) N - i = B from by omega, List.range'_append_1]
        congr 1
        omega
      · rw [show min (i + B) N - i = N - i from by omega,
          show N - (i + B) = 0 from by omega]
        simp
    · rw [enrichLoop_base _ _ _ _ _ _ hiN, show N - i = 0 from by omega]
      rfl

theorem enrichLoop_events_segments (f : Nat → TaskRes) (N B : Nat) (hB : 0 < B) :
    ∀ (fuel i : Nat) (t : Table), N - i ≤ fuel →
      (enrichLoop f true N B i t).events =
        ((List.range (numBatches N i B)).map (fun b =>
          ((List.range' (i + b * B) (min B (N - (i + b * B)))).map Event.attempt)
            ++ [Event.checkpointWrite])).flatten := by
  intro fuel
  induction fuel with
  | zero =>
    intro i t hfuel
    rw [enrichLoop_base _ _ _ _ _ _ (by omega)]
    rw [show numBatches N i B = 0 from by
      unfold numBatches
      rw [show N - i = 0 from by omega]
      exact Nat.div_eq_of_lt (by omega)]
    rfl
  | succ m ih =>
    intro i t hfuel
    by_cases hiN : i < N
    · rw [enrichLoop_step _ _ _ _ _ _ hiN]
      dsimp only
      rw [Nat.max_eq_left hB, if_pos rfl, ih (i + B) _ (by omega)]
      rw [numBatches_step N i B hB hiN, List.range_succ_eq_map, List.map_cons, List.flatten_cons]
      congr 1
      · rw [show i + 0 * B = i from by omega,
          show min B (N - i) = min (i + B) N - i from by omega]
      · rw [List.map_map]
        congr 1
        apply List.map_congr_left
        intro b hb
        dsimp only [Function.comp]
        simp only [Nat.succ_eq_add_one]
        rw [show i + (b + 1) * B = i + B + b * B from by ring]
    · rw [enrichLoop_base _ _ _ _ _ _ hiN]
      rw [show numBatches N i B = 0 from by
        unfold numBatches
        rw [show N - i = 0 from by omega]
        exact Nat.div_eq_of_lt (by omega)]
      rfl

theorem run_eq_loop (f : Nat → TaskRes) (df : Table) (saveI : Bool) (B s : Nat)
    (hB : 0 < B) (ro : RunOut) (hro : enrich_listings_batch f df saveI B s = some ro) :
    ro = enrichLoop f saveI df.length B s df := by
  unfold enrich_listings_batch at hro
  rw [if_pos hB] at hro
  exact (Option.some.inj hro).symm

/-- Claim C3: with checkpointing enabled (the `save_intermediate`
default the CLI always uses), the orchestrator writes one checkpoint of
the full output table — one row per input record — after each batch,
and the number of checkpoint writes is ⌈(N - s) / B⌉. -/
theorem claim3_checkpoint_count (f : Nat → TaskRes) (df : Table) (B s : Nat)
    (hB : 0 < B) (ro : RunOut)
    (hro : enrich_listings_batch f df true B s = some ro) :
    ro.checkpoints.length = (df.length - s + B - 1) / B ∧
    ∀ c ∈ ro.checkpoints, c.length = df.length := by
  rw [run_eq_loop f df true B s hB ro hro]
  exact enrichLoop_checkpoints f df.length B hB df.length s df (by omega)

/-- Witness for C3: three records, batch size two, two checkpoints. -/
theorem claim3_checkpoint_count_witness :
    0 < 2 ∧
    enrich_listings_batch raisingTasks threeRowDf true 2 0
      = some (enrichLoop raisingTasks true threeRowDf.length 2 0 threeRowDf) ∧
    ((enrichLoop raisingTasks true threeRowDf.length 2 0 threeRowDf).checkpoints.length
        = (threeRowDf.length - 0 + 2 - 1) / 2 ∧
      ∀ c ∈ (enrichLoop raisingTasks true threeRowDf.length 2 0 threeRowDf).checkpoints,
        c.length = threeRowDf.length) :=
  ⟨by decide, rfl, claim3_checkpoint_count raisingTasks threeRowDf 2 0 (by decide) _ rfl⟩

/-- Claim C6: resuming with `start_index = k` on a checkpoint table
covering records [0, k) leaves rows [0, k) exactly as in the
checkpoint, and gives every row of [k, N) the value the resumed run's
own task determines for it. -/
theorem claim6_resume_from_checkpoint (f : Nat → TaskRes) (ckpt : Table) (B k : Nat)
    (hB : 0 < B) (hk : k ≤ ckpt.length) (ro : RunOut)
    (hro : enrich_listings_batch f ckpt true B k = some ro) :
    (∀ j, j < k → ro.table[j]? = ckpt[j]?) ∧
    (∀ j, k ≤ j → j < ckpt.length →
      ro.table[j]? = (ckpt[j]?).map (mergeRowRes (f j))) := by
  rw [run_eq_loop f ckpt true B k hB ro hro]
  constructor
  · intro j hj
    rw [enrichLoop_table_get f true ckpt.length B hB ckpt.length k ckpt (by omega) j,
      if_neg (by omega)]
  · intro j hj1 hj2
    rw [enrichLoop_table_get f true ckpt.length B hB ckpt.length k ckpt (by omega) j,
      if_pos ⟨hj1, hj2⟩]

/-- Witness for C6: resume a three-row table at index one. -/
theorem claim6_resume_from_checkpoint_witness :
    0 < 2 ∧ 1 ≤ threeRowDf.length ∧
    ((∀ j, j < 1 →
        (enrichLoop raisingTasks true threeRowDf.length 2 1 threeRowDf).table[j]?
          = threeRowDf[j]?) ∧
      (∀ j, 1 ≤ j → j < threeRowDf.length →
        (enrichLoop raisingTasks true threeRowDf.length 2 1 threeRowDf).table[j]?
          = (threeRowDf[j]?).map (mergeRowRes (raisingTasks j)))) :=
  ⟨by decide, by decide,
    claim6_resume_from_checkpoint raisingTasks threeRowDf 2 1 (by decide) (by decide) _ rfl⟩

/-- Claim C7: every record index in [s, N) is attempted exactly once,
in ascending order (hence in ascending batch order), and the event
trace is, batch by batch, that batch's attempts followed immediately by
its checkpoint write — so batch b's checkpoint write precedes every
attempt of batch b+1. -/
theorem claim7_batch_ordering (f : Nat → TaskRes) (df : Table) (B s : Nat)
    (hB : 0 < B) (ro : RunOut)
    (hro : enrich_listings_batch f df true B s = some ro) :
    ro.events.filterMap attemptOf = List.range' s (df.length - s) ∧
    (ro.events.filterMap attemptOf).Nodup ∧
    ro.events = ((List.range ((df.length - s + B - 1) / B)).map (fun b =>
      ((List.range' (s + b * B) (min B (df.length - (s + b * B)))).map Event.attempt)
        ++ [Event.checkpointWrite])).flatten := by
  rw [run_eq_loop f df true B s hB ro hro]
  refine ⟨enrichLoop_attempt_indices f true df.length B hB df.length s df (by omega),
    ?_, enrichLoop_events_segments f df.length B hB df.length s df (by omega)⟩
  rw [enrichLoop_attempt_indices f true df.length B hB df.length s df (by omega)]
  exact List.nodup_range' s (df.length - s)

/-- Witness for C7 at a concrete three-record run with batch size two. -/
theorem claim7_batch_ordering_witness :
    0 < 2 ∧
    ((enrichLoop raisingTasks true threeRowDf.length 2 0 threeRowDf).events.filterMap attemptOf
        = List.range' 0 (threeRowDf.length - 0) ∧
      ((enrichLoop raisingTasks true threeRowDf.length 2 0 threeRowDf).events.filterMap
          attemptOf).Nodup ∧
      (enrichLoop raisingTasks true threeRowDf.length 2 0 threeRowDf).events
        = ((List.range ((threeRowDf.length - 0 + 2 - 1) / 2)).map (fun b =>
          ((List.range' (0 + b * 2) (min 2 (threeRowDf.length - (0 + b * 2)))).map
            Event.attempt) ++ [Event.checkpointWrite])).flatten) :=
  ⟨by decide, claim7_batch_ordering raisingTasks threeRowDf 2 0 (by decide) _ rfl⟩

/-- Claim C5: when one record's batch task raises, that record's row is
left exactly as it was (no new columns), every record in range is still
attempted, and every record in range still ends up with the value its
own task determines — one record's failure never aborts the run. -/
theorem claim5_record_failure_isolated (f : Nat → TaskRes) (df : Table) (B s j : Nat)
    (hB : 0 < B) (hj : s ≤ j ∧ j < df.length) (hraised : f j = TaskRes.raised)
    (ro : RunOut) (hro : enrich_listings_batch f df true B s = some ro) :
    ro.table[j]? = df[j]? ∧
    (∀ i, s ≤ i → i < df.length → Event.attempt i ∈ ro.events) ∧
    (∀ i, s ≤ i → i < df.length → ro.table[i]? = (df[i]?).map (mergeRowRes (f i))) := by
  rw [run_eq_loop f df true B s hB ro hro]
  refine ⟨?_, ?_, ?_⟩
  · rw [enrichLoop_table_get f true df.length B hB df.length s df (by omega) j,
      if_pos hj, hraised]
    cases df[j]? <;> rfl
  · intro i h1 h2
    have hfm := enrichLoop_attempt_indices f true df.length B hB df.length s df (by omega)
    have hi : i ∈ List.range' s (df.length - s) := by
      rw [List.mem_range'_1]
      omega
    rw [← hfm] at hi
    obtain ⟨e, he, hei⟩ := List.mem_filterMap.mp hi
    cases e with
    | attempt a =>
      have : a = i := by
        simpa [attemptOf] using hei
      rw [← this]
      exact he
    | checkpointWrite =>
      simp [attemptOf] at hei
  · intro i h1 h2
    rw [enrichLoop_table_get f true df.length B hB df.length s df (by omega) i,
      if_pos ⟨h1, h2⟩]

/-- Witness for C5: record one raises in a three-record run. -/
theorem claim5_record_failure_isolated_witness :
    0 < 2 ∧ (0 ≤ 1 ∧ 1 < threeRowDf.length) ∧ raisingTasks 1 = TaskRes.raised ∧
    ((enrichLoop raisingTasks true threeRowDf.length 2 0 threeRowDf).table[1]?
        = threeRowDf[1]? ∧
      (∀ i, 0 ≤ i → i < threeRowDf.length →
        Event.attempt i ∈ (enrichLoop raisingTasks true threeRowDf.length 2 0
          threeRowDf).events) ∧
      (∀ i, 0 ≤ i → i < threeRowDf.length →
        (enrichLoop raisingTasks true threeRowDf.length 2 0 threeRowDf).table[i]?
          = (threeRowDf[i]?).map (mergeRowRes (raisingTasks i)))) :=
  ⟨by decide, by decide, rfl,
    claim5_record_failure_isolated raisingTasks threeRowDf 2 0 1 (by decide) (by decide)
      rfl _ rfl⟩

theorem setKey_append_keeps_prefix (r e : EMap) (k : String) (v : Val)
    (h : ∀ q ∈ r, q.1 ≠ k) : ∃ e2, setKey (r ++ e) k v = r ++ e2 := by
  unfold setKey
  by_cases hany : (r ++ e).any (fun p => decide (p.1 = k)) = true
  · rw [if_pos hany, List.map_append]
    refine ⟨e.map (fun p => if p.1 = k then (k, v) else p), ?_⟩
    congr 1
    calc r.map (fun p => if p.1 = k then (k, v) else p)
        = r.map id := List.map_congr_left (fun q hq => by rw [if_neg (h q hq)]; rfl)
      _ = r := List.map_id r
  · rw [if_neg hany, List.append_assoc]
    exact ⟨e ++ [(k, v)], rfl⟩

theorem applyRow_keeps_prefix (m : EMap) : ∀ (r e : EMap),
    (∀ kv ∈ m, ∀ q ∈ r, q.1 ≠ kv.1) → ∃ ext, applyRow (r ++ e) m = r ++ ext := by
  induction m with
  | nil => exact fun r e _ => ⟨e, rfl⟩
  | cons kv m2 ih =>
    intro r e h
    obtain ⟨e2, he2⟩ := setKey_append_keeps_prefix r e kv.1 kv.2
      (fun q hq => h kv (List.mem_cons_self _ _) q hq)
    have hstep : applyRow (r ++ e) (kv :: m2) = applyRow (r ++ e2) m2 := by
      unfold applyRow
      rw [List.foldl_cons, he2]
    rw [hstep]
    exact ih r e2 (fun kv2 hkv2 q hq => h kv2 (List.mem_cons_of_mem _ hkv2) q hq)

/-- Counterexample to C4 as stated: when the input table already has a
column named like an enrichment key (here `median_income`), the merge
overwrites that existing cell in place, so the output row is not the
input row with columns appended — the output differs from the input in
a pre-existing column, not only by added columns. -/
theorem claim4_counterexample :
    enrich_listings_batch collidingTasks collidingDf true 1 0
      = some (enrichLoop collidingTasks true collidingDf.length 1 0 collidingDf) ∧
    (enrichLoop collidingTasks true collidingDf.length 1 0 collidingDf).table.length
      = collidingDf.length ∧
    ¬ onlyAddsColumns (collidingDf.getD 0 [])
      ((enrichLoop collidingTasks true collidingDf.length 1 0 collidingDf).table.getD 0 []) := by
  have hev : (enrichLoop collidingTasks true collidingDf.length 1 0 collidingDf).table
      = [[("median_income", Val.vint 7)]] := by
    simp [enrichLoop.eq_def, collidingDf, collidingTasks, mergeBatch, mergeOne, applyRow,
      setKey, List.range']
  refine ⟨rfl, ?_, ?_⟩
  · rw [hev]
    rfl
  · rw [hev]
    rintro ⟨ext, hext⟩
    simp [collidingDf, onlyAddsColumns] at hext

/-- Claim C4 amended: provided no enrichment key produced by any task
coincides with a column already present in an input row, the output
table has exactly the input's row count, every output row is its input
row with columns only appended after it, and merging one record's
result never modifies any other record's row.  (As stated the claim is
refuted by `claim4_counterexample`: a pre-existing column equal to an
enrichment key is overwritten in place.) -/
theorem claim4_amended_rows_preserved (f : Nat → TaskRes) (df : Table) (B s : Nat)
    (hB : 0 < B) (ro : RunOut)
    (hro : enrich_listings_batch f df true B s = some ro)
    (hdisj : ∀ i m, f i = TaskRes.ok m → ∀ kv ∈ m, ∀ row ∈ df, ∀ q ∈ row, q.1 ≠ kv.1) :
    ro.table.length = df.length ∧
    (∀ (j : Nat) (r : EMap), df[j]? = some r → ∃ ext : EMap, ro.table[j]? = some (r ++ ext)) ∧
    (∀ (t : Table) (idx j : Nat), j ≠ idx → (mergeOne f t idx)[j]? = t[j]?) := by
  rw [run_eq_loop f df true B s hB ro hro]
  refine ⟨enrichLoop_table_length f true df.length B hB df.length s df (by omega), ?_, ?_⟩
  · intro j r hr
    rw [enrichLoop_table_get f true df.length B hB df.length s df (by omega) j]
    by_cases hin : s ≤ j ∧ j < df.length
    · rw [if_pos hin, hr]
      cases hf : f j with
      | raised => exact ⟨[], by rw [List.append_nil]; rfl⟩
      | ok m =>
        obtain ⟨ext, hext⟩ := applyRow_keeps_prefix m r []
          (fun kv hkv q hq => hdisj j m hf kv hkv r (List.getElem?_mem hr) q hq)
        rw [List.append_nil] at hext
        refine ⟨ext, ?_⟩
        rw [show Option.map (mergeRowRes (TaskRes.ok m)) (some r)
            = some (applyRow r m) from rfl, hext]
    · rw [if_neg hin, hr]
      exact ⟨[], by rw [List.append_nil]⟩
  · intro t idx j hj
    rw [mergeOne_get, if_neg hj]

/-- Witness for the amended C4: three rows whose only column is
`address`, enrichment key `bus_stops_1km`, disjoint from it. -/
theorem claim4_amended_rows_preserved_witness :
    0 < 2 ∧
    ((enrichLoop raisingTasks true threeRowDf.length 2 0 threeRowDf).table.length
        = threeRowDf.length ∧
      (∀ (j : Nat) (r : EMap), threeRowDf[j]? = some r →
        ∃ ext : EMap,
          (enrichLoop raisingTasks true threeRowDf.length 2 0 threeRowDf).table[j]?
            = some (r ++ ext)) ∧
      (∀ (t : Table) (idx j : Nat), j ≠ idx →
        (mergeOne raisingTasks t idx)[j]? = t[j]?)) := by
  refine ⟨by decide, claim4_amended_rows_preserved raisingTasks threeRowDf 2 0 (by decide)
    _ rfl ?_⟩
  intro i m hfm kv hkv row hrow q hq
  unfold raisingTasks at hfm
  by_cases hi : i = 1
  · rw [if_pos hi] at hfm
    cases hfm
  · rw [if_neg hi] at hfm
    injection hfm with hm
    subst hm
    simp only [List.mem_singleton] at hkv
    subst hkv
    simp only [threeRowDf, List.mem_cons, List.mem_singleton, List.not_mem_nil] at hrow
    rcases hrow with hrow | hrow | hrow | hrow <;> first
      | (subst hrow
         simp only [List.mem_singleton] at hq
         subst hq
         decide)
      | cases hrow
